import Mathlib

/-!
Verification of the news-agent position-history / trade-aggregation engine and
the smart-wallet backtest engine, as a shallow embedding in Lean 4.

Python floats are modelled as exact rationals (ℚ); the two metrics whose
computation is genuinely irrational (annualised Sharpe via `math.sqrt`, CAGR via
a fractional power) are modelled in ℝ.  Python exceptions are modelled with
`Except`: `.ok` is a normal return, `.error` a raised exception.
-/

namespace NewsAgent

/-! ## Position State Tracker (`_PositionState` in `news_agent/hyperliquid.py`) -/

inductive Side where
  | buy
  | sell
deriving DecidableEq

/-- One per wallet × symbol: signed position size and volume-weighted average
entry price (`_PositionState`). -/
structure PosState where
  signed_size : ℚ
  average_entry : ℚ
deriving DecidableEq

/-- The effect of one fill: the successor state plus the three values Python's
`apply_fill` returns: `(realized_pnl_before_fee, entry_price, exit_price)`. -/
structure FillEffect where
  state : PosState
  realized : ℚ
  entry_price : ℚ
  exit_price : ℚ
deriving DecidableEq

/-- Body of `_PositionState.apply_fill` from the `signed_change` computation
onward, translated branch by branch. -/
def applyFillCore (s : PosState) (signedChange price : ℚ) : FillEffect :=
  let previousSize := s.signed_size
  let previousEntry := s.average_entry
  let entryPrice0 := if previousEntry > 0 then previousEntry else price
  if previousSize = 0 ∨ (previousSize > 0 ∧ signedChange > 0) ∨
      (previousSize < 0 ∧ signedChange < 0) then
    let newSize := previousSize + signedChange
    let newEntry :=
      if previousSize = 0 then price
      else if |newSize| > 0 then
        (|previousSize| * previousEntry + |signedChange| * price) / |newSize|
      else previousEntry
    ⟨⟨newSize, newEntry⟩, 0, newEntry, 0⟩
  else
    let closingSize := min |previousSize| |signedChange|
    let direction : ℚ := if previousSize > 0 then 1 else -1
    let realized := closingSize * (price - previousEntry) * direction
    let newSize := previousSize + signedChange
    if newSize = 0 then ⟨⟨0, 0⟩, realized, entryPrice0, price⟩
    else if (previousSize > 0 ∧ newSize < 0) ∨ (previousSize < 0 ∧ newSize > 0) then
      ⟨⟨newSize, price⟩, realized, price, price⟩
    else ⟨⟨newSize, previousEntry⟩, realized, entryPrice0, price⟩

/-- `_PositionState.apply_fill(side, size, price)`:
`signed_change = size if side == "buy" else -size`, then the branch logic. -/
def apply_fill (s : PosState) (side : Side) (size price : ℚ) : FillEffect :=
  applyFillCore s (if side = Side.buy then size else -size) price

/-- A fill as fed to the tracker: side, size, price. -/
structure Fill where
  side : Side
  size : ℚ
  price : ℚ

/-- Replay a fill sequence through a fresh tracker (state after the whole list). -/
def replay (fills : List Fill) : PosState :=
  fills.foldl (fun s f => (apply_fill s f.side f.size f.price).state) ⟨0, 0⟩

/-! ## Loosely-typed Python values and the string operations the normalizer uses

Raw fill records are JSON-like mappings.  `PyVal` models the value types the
normalizer can meet: `None`, strings, numbers (int and float collapsed into ℚ)
and other objects (lists/dicts, represented by `vlist`).  The string operations
are reimplemented character-by-character (ASCII) so that they compute by
structural recursion. -/

inductive PyVal where
  | vnone
  | vstr (s : String)
  | vnum (q : ℚ)
  | vlist (xs : List PyVal)

/-- A raw fill record: an association list of string keys (dict semantics:
first binding of a key wins; Python dicts cannot repeat keys). -/
def RawFill : Type := List (String × PyVal)

/-- `fill.get(key)`: the bound value, or `None` when the key is absent. -/
def pyGet (f : RawFill) (k : String) : PyVal :=
  match List.find? (fun p => p.1 == k) f with
  | some p => p.2
  | none => PyVal.vnone

/-- Python truthiness of a value (`bool(x)`). -/
def pyTruthy : PyVal → Bool
  | PyVal.vnone => false
  | PyVal.vstr s => !s.data.isEmpty
  | PyVal.vnum q => !(decide (q = 0))
  | PyVal.vlist xs => !xs.isEmpty

/-- `a or b or ... or dflt`: the first truthy value, else the final literal. -/
def orChain (vs : List PyVal) (dflt : PyVal) : PyVal :=
  match vs with
  | [] => dflt
  | v :: rest => if pyTruthy v then v else orChain rest dflt

def charLower (c : Char) : Char :=
  if 'A' ≤ c ∧ c ≤ 'Z' then Char.ofNat (c.toNat + 32) else c

def charUpper (c : Char) : Char :=
  if 'a' ≤ c ∧ c ≤ 'z' then Char.ofNat (c.toNat - 32) else c

/-- `str.lower()` (ASCII). -/
def strLower (s : String) : String := ⟨s.data.map charLower⟩

/-- `str.upper()` (ASCII). -/
def strUpper (s : String) : String := ⟨s.data.map charUpper⟩

/-- `str.strip()`. -/
def strTrim (s : String) : String :=
  ⟨((s.data.dropWhile Char.isWhitespace).reverse.dropWhile Char.isWhitespace).reverse⟩

def listStartsWith : List Char → List Char → Bool
  | _, [] => true
  | [], _ :: _ => false
  | c :: cs, p :: ps => c == p && listStartsWith cs ps

def listContains : List Char → List Char → Bool
  | [], pat => listStartsWith [] pat
  | c :: t, pat => listStartsWith (c :: t) pat || listContains t pat

/-- Python's `pat in s` substring test. -/
def strContains (hay pat : String) : Bool := listContains hay.data pat.data

/-- `str.isdigit()` (ASCII digits). -/
def isDigitStr (s : String) : Bool := !s.data.isEmpty && s.data.all Char.isDigit

/-- Numeric value of a digit string. -/
def digitsVal (l : List Char) : ℕ := l.foldl (fun n c => n * 10 + (c.toNat - 48)) 0

/-- Unsigned decimal numeral, optionally with a fractional part. -/
def parseUnsigned (l : List Char) : Option ℚ :=
  let intPart := l.takeWhile Char.isDigit
  let rest := l.dropWhile Char.isDigit
  if intPart.isEmpty then none
  else
    match rest with
    | [] => some (digitsVal intPart : ℚ)
    | '.' :: frac =>
      if !frac.isEmpty && frac.all Char.isDigit then
        some ((digitsVal intPart : ℚ) + (digitsVal frac : ℚ) / 10 ^ frac.length)
      else none
    | _ => none

/-- Python `float(s)` restricted to plain signed decimal numerals (the numeric
strings this exchange's API produces); anything else is a `ValueError`,
signalled by `none`.  Python also strips surrounding whitespace first. -/
def parseFloatStr (s : String) : Option ℚ :=
  match (strTrim s).data with
  | '-' :: rest => (parseUnsigned rest).map Neg.neg
  | '+' :: rest => parseUnsigned rest
  | l => parseUnsigned l

/-- Decimal rendering of an integer. -/
def intRender (i : ℤ) : String :=
  ⟨(if i < 0 then ['-'] else []) ++ Nat.toDigits 10 i.natAbs⟩

/-- `str(x)`.  The rendering of non-integral numbers and of lists is a
simplified stand-in (Python prints decimals); the aggregation pipeline only
ever compares these strings against `""` or embeds them in synthesized trade
identifiers, so only non-emptiness is load-bearing, which this preserves. -/
def pyStr : PyVal → String
  | PyVal.vnone => "None"
  | PyVal.vstr s => s
  | PyVal.vnum q =>
    if q.den = 1 then intRender q.num
    else intRender q.num ++ "/" ++ intRender (q.den : ℤ)
  | PyVal.vlist _ => "[...]"

/-- `float(str(value))` as used by `_safe_float`: numbers round-trip, numeric
strings parse, everything else raises a suppressed `ValueError` (`none`). -/
def safeFloat1 : PyVal → Option ℚ
  | PyVal.vnum q => some q
  | PyVal.vstr s => parseFloatStr s
  | _ => none

/-- `_safe_float(*values, default)`: first non-`None` value that converts. -/
def safeFloat (vs : List PyVal) (dflt : ℚ) : ℚ :=
  match vs with
  | [] => dflt
  | PyVal.vnone :: rest => safeFloat rest dflt
  | v :: rest =>
    match safeFloat1 v with
    | some q => q
    | none => safeFloat rest dflt

/-! ## Timestamp parsing (`news_agent/normalization.py: parse_timestamp`)

Timestamps are modelled as rational epoch seconds (UTC).  The stdlib pieces
(`datetime.fromtimestamp`, `datetime.fromisoformat`,
`email.utils.parsedate_to_datetime`) are external collaborators; they are
modelled at their interface, over the input shapes this repository's data
sources produce. -/

inductive PyErr where
  | typeError
  | valueError
  | overflowError
deriving DecidableEq

/-- Exception classes suppressed by the `except (TypeError, ValueError)`
handlers in `_fill_sort_key` and `_state_timestamp`. -/
def catchable : PyErr → Bool
  | PyErr.typeError => true
  | PyErr.valueError => true
  | PyErr.overflowError => false

/-- Largest epoch value `datetime.fromtimestamp` accepts before the platform
`time_t` conversion overflows (64-bit `time_t`). -/
def timeTMax : ℚ := 9223372036854775807

/-- Epoch seconds of `datetime.max` (9999-12-31 23:59:59 UTC). -/
def dtMaxSec : ℚ := 253402300799

/-- Epoch seconds of `datetime.min` (0001-01-01 00:00:00 UTC). -/
def dtMinSec : ℚ := -62135596800

/-- `datetime.fromtimestamp(t, tz=timezone.utc)`: `OverflowError` beyond the
platform `time_t` range, `ValueError` for years outside 1..9999, otherwise the
instant itself.  (Sub-microsecond rounding and the platform-specific `OSError`
bands of `gmtime` are not modelled.) -/
def fromtimestampE (t : ℚ) : Except PyErr ℚ :=
  if t > timeTMax ∨ t < -timeTMax then Except.error PyErr.overflowError
  else if t > dtMaxSec ∨ t < dtMinSec then Except.error PyErr.valueError
  else Except.ok t

/-- Days in a Gregorian month. -/
def daysInMonth (y m : ℕ) : ℕ :=
  if m = 2 then (if (y % 4 = 0 ∧ y % 100 ≠ 0) ∨ y % 400 = 0 then 29 else 28)
  else if m = 4 ∨ m = 6 ∨ m = 9 ∨ m = 11 then 30
  else 31

/-- Days since the Unix epoch of a civil date (standard civil-from-days
inverse; valid for years ≥ 1, which is all `datetime` supports). -/
def daysFromCivil (y m d : ℤ) : ℤ :=
  let y2 := if m ≤ 2 then y - 1 else y
  let era := y2 / 400
  let yoe := y2 - era * 400
  let doy := (153 * (if m > 2 then m - 3 else m + 9) + 2) / 5 + d - 1
  let doe := yoe * 365 + yoe / 4 - yoe / 100 + doy
  era * 146097 + doe - 719468

/-- Fixed-width decimal field. -/
def fixedNat (l : List Char) : Option ℕ :=
  if !l.isEmpty && l.all Char.isDigit then some (digitsVal l) else none

/-- Seconds denoted by a `HH:MM:SS` character block. -/
def parseHMS (l : List Char) : Option ℕ :=
  match l with
  | [h1, h2, ':', m1, m2, ':', s1, s2] =>
    match fixedNat [h1, h2], fixedNat [m1, m2], fixedNat [s1, s2] with
    | some h, some m, some s =>
      if h ≤ 23 ∧ m ≤ 59 ∧ s ≤ 59 then some (h * 3600 + m * 60 + s) else none
    | _, _, _ => none
  | _ => none

/-- Signed seconds of a `+HH:MM` / `-HH:MM` UTC-offset suffix. -/
def parseOffset (l : List Char) : Option ℤ :=
  match l with
  | [sgn, h1, h2, ':', m1, m2] =>
    match fixedNat [h1, h2], fixedNat [m1, m2] with
    | some h, some m =>
      if sgn = '+' then some ((h * 3600 + m * 60 : ℕ) : ℤ)
      else if sgn = '-' then some (-((h * 3600 + m * 60 : ℕ) : ℤ))
      else none
    | _, _ => none
  | _ => none

/-- Epoch seconds of a validated civil date-time minus a UTC offset. -/
def civilToEpoch (y mo d hms : ℕ) (off : ℤ) : Option ℚ :=
  if 1 ≤ mo ∧ mo ≤ 12 ∧ 1 ≤ d ∧ d ≤ daysInMonth y mo then
    some (((daysFromCivil y mo d * 86400 + hms - off : ℤ) : ℚ))
  else none

/-- `datetime.fromisoformat`, over the ISO-8601 shapes this repository's data
uses: `YYYY-MM-DD`, optionally `T`/space plus `HH:MM:SS`, optionally a
`±HH:MM` offset.  A naive result is converted with `.astimezone(utc)`; the
host clock is modelled as UTC.  Anything else: `ValueError`. -/
def fromisoformatE (s : String) : Except PyErr ℚ :=
  match s.data with
  | y1 :: y2 :: y3 :: y4 :: '-' :: m1 :: m2 :: '-' :: d1 :: d2 :: rest =>
    (match fixedNat [y1, y2, y3, y4], fixedNat [m1, m2], fixedNat [d1, d2] with
     | some y, some mo, some d =>
       (match rest with
        | [] =>
          (match civilToEpoch y mo d 0 0 with
           | some t => Except.ok t
           | none => Except.error PyErr.valueError)
        | sep :: timeRest =>
          if sep = 'T' ∨ sep = ' ' then
            (match parseHMS (timeRest.take 8), parseOffset (timeRest.drop 8) with
             | some hms, some off =>
               (match civilToEpoch y mo d hms off with
                | some t => Except.ok t
                | none => Except.error PyErr.valueError)
             | some hms, none =>
               if (timeRest.drop 8).isEmpty then
                 (match civilToEpoch y mo d hms 0 with
                  | some t => Except.ok t
                  | none => Except.error PyErr.valueError)
               else Except.error PyErr.valueError
             | none, _ => Except.error PyErr.valueError)
          else Except.error PyErr.valueError)
     | _, _, _ => Except.error PyErr.valueError)
  | _ => Except.error PyErr.valueError

/-- Splits a character list on a separator character. -/
def splitChar (l : List Char) (c : Char) : List (List Char) :=
  match l with
  | [] => [[]]
  | x :: xs =>
    match splitChar xs c with
    | [] => if x == c then [[], []] else [[x]]
    | h :: t => if x == c then [] :: h :: t else (x :: h) :: t

def monthNames : List (List Char) :=
  ["Jan".data, "Feb".data, "Mar".data, "Apr".data, "May".data, "Jun".data,
   "Jul".data, "Aug".data, "Sep".data, "Oct".data, "Nov".data, "Dec".data]

/-- Zone token of an RFC-2822 date: named UTC zones or `±HHMM`. -/
def parseRfcZone (l : List Char) : Option ℤ :=
  if l = "GMT".data ∨ l = "UT".data ∨ l = "UTC".data ∨ l = "Z".data then some 0
  else
    match l with
    | [sgn, h1, h2, m1, m2] =>
      match fixedNat [h1, h2], fixedNat [m1, m2] with
      | some h, some m =>
        if sgn = '+' then some ((h * 3600 + m * 60 : ℕ) : ℤ)
        else if sgn = '-' then some (-((h * 3600 + m * 60 : ℕ) : ℤ))
        else none
      | _, _ => none
    | _ => none

/-- `email.utils.parsedate_to_datetime`, over the usual RFC-2822 form
`Www, dd Mon yyyy HH:MM:SS zone`; anything else raises `ValueError`
(Python ≥ 3.10). -/
def parsedateToDatetimeE (s : String) : Except PyErr ℚ :=
  match (splitChar (strTrim s).data ' ').filter (fun t => !t.isEmpty) with
  | [dayName, dd, mon, yyyy, hms, zone] =>
    (match dayName.getLast?, fixedNat dd, List.findIdx? (fun n => n = mon) monthNames,
           fixedNat yyyy, parseHMS hms, parseRfcZone zone with
     | some ',', some d, some mIdx, some y, some t, some off =>
       (match civilToEpoch y (mIdx + 1) d t off with
        | some v => Except.ok v
        | none => Except.error PyErr.valueError)
     | _, _, _, _, _, _ => Except.error PyErr.valueError)
  | _ => Except.error PyErr.valueError

/-- `"Z"` → `"+00:00"` substitution applied before ISO parsing. -/
def strReplaceZ (s : String) : String :=
  ⟨s.data.foldr (fun c acc => (if c = 'Z' then "+00:00".data else [c]) ++ acc) []⟩

/-- `parse_timestamp` from `news_agent/normalization.py`.  `datetime` instances
never occur in JSON-decoded fill records, so that branch is not modelled. -/
def parse_timestamp : PyVal → Except PyErr ℚ
  | PyVal.vnum q => fromtimestampE (if q > 10000000000 then q / 1000 else q)
  | PyVal.vstr s =>
    let clean := strTrim s
    if isDigitStr clean then
      let n : ℚ := (digitsVal clean.data : ℚ)
      if n > 10000000000 then fromtimestampE (n / 1000) else fromtimestampE n
    else
      (match fromisoformatE (strReplaceZ clean) with
       | Except.ok t => Except.ok t
       | Except.error _ => parsedateToDatetimeE clean)
  | _ => Except.error PyErr.valueError

/-! ## Fill Normalizer (`_fill_sort_key`, `_normalize_fill`) -/

/-- `value is None`. -/
def pyIsNone : PyVal → Bool
  | PyVal.vnone => true
  | _ => false

/-- Key loop of `_fill_sort_key`: absent/`None` keys and suppressed parse
errors move on to the next key; any other exception propagates; exhaustion
falls back to `datetime.fromtimestamp(0, tz=utc)`, i.e. the epoch. -/
def fillSortKeyGo (f : RawFill) : List String → Except PyErr ℚ
  | [] => Except.ok 0
  | k :: ks =>
    if pyIsNone (pyGet f k) then fillSortKeyGo f ks
    else
      match parse_timestamp (pyGet f k) with
      | Except.ok t => Except.ok t
      | Except.error e => if catchable e then fillSortKeyGo f ks else Except.error e

/-- `_fill_sort_key(fill)`. -/
def fill_sort_key (f : RawFill) : Except PyErr ℚ :=
  fillSortKeyGo f ["time", "timestamp", "ts"]

/-- `_NormalizedFill`. -/
structure NormalizedFill where
  trade_id : String
  symbol : String
  side : Side
  size : ℚ
  price : ℚ
  fee : ℚ
  timestamp : ℚ
deriving DecidableEq

/-- `_normalize_fill(wallet, fill)`: `.ok none` is the silent `return None`
rejection, `.error` a propagating exception. -/
def normalize_fill (wallet : String) (fill : RawFill) : Except PyErr (Option NormalizedFill) :=
  let symbol := strUpper (pyStr (orChain
    [pyGet fill "coin", pyGet fill "symbol", pyGet fill "asset"] (PyVal.vstr "")))
  if symbol = "" then Except.ok none
  else
    let tid0 := pyStr (orChain
      [pyGet fill "tid", pyGet fill "tradeId", pyGet fill "hash", pyGet fill "oid"]
      (PyVal.vstr ""))
    let tradeId :=
      if tid0 = "" then
        wallet ++ ":" ++ symbol ++ ":" ++
          pyStr (orChain [pyGet fill "time", pyGet fill "timestamp"] (PyVal.vstr "0"))
      else tid0
    let sideRaw := strLower (pyStr (orChain
      [pyGet fill "side", pyGet fill "dir"] (PyVal.vstr "")))
    let sizeGuess := safeFloat
      [pyGet fill "sz", pyGet fill "size", pyGet fill "sizeDelta"] 0
    let side :=
      if strContains sideRaw "sell" || strContains sideRaw "short" then Side.sell
      else if strContains sideRaw "buy" || strContains sideRaw "long" then Side.buy
      else if sizeGuess ≥ 0 then Side.buy
      else Side.sell
    let size := |sizeGuess|
    if size = 0 then Except.ok none
    else
      let price := safeFloat [pyGet fill "px", pyGet fill "price", pyGet fill "avgPx"] 0
      if price ≤ 0 then Except.ok none
      else
        let fee := |safeFloat [pyGet fill "fee", pyGet fill "feePaid"] 0|
        match fill_sort_key fill with
        | Except.error e => Except.error e
        | Except.ok ts => Except.ok (some ⟨tradeId, symbol, side, size, price, fee, ts⟩)

/-! ## Trade Aggregator (`aggregate_trade_history`) -/

/-- `HyperliquidTrade`. -/
structure Trade where
  wallet : String
  trade_id : String
  symbol : String
  side : Side
  size : ℚ
  price : ℚ
  fee : ℚ
  timestamp : ℚ
  entry_price : ℚ
  exit_price : ℚ
  realized_pnl : ℚ
  cumulative_pnl : ℚ
deriving DecidableEq

def defaultTrade : Trade := ⟨"", "", "", Side.buy, 0, 0, 0, 0, 0, 0, 0, 0⟩

/-- `WalletPerformance`.  `latest_trade_time` falls back to `utcnow()` when the
ledger is empty; the impure clock read is modelled as `none`. -/
structure WalletPerformance where
  wallet : String
  trade_count : ℕ
  total_realized_pnl : ℚ
  cumulative_fees : ℚ
  win_rate : ℚ
  latest_trade_time : Option ℚ
deriving DecidableEq

/-- Loop state of the aggregation `for fill in normalized` loop. -/
structure AggAcc where
  states : List (String × PosState)
  trades : List Trade
  cumulativePnl : ℚ
  realizedHits : ℕ
deriving DecidableEq

/-- `states.setdefault(symbol, _PositionState())` (read side). -/
def lookupState (states : List (String × PosState)) (sym : String) : PosState :=
  match List.find? (fun p => p.1 == sym) states with
  | some p => p.2
  | none => ⟨0, 0⟩

/-- Store the mutated per-symbol state back into the dict. -/
def updateState (states : List (String × PosState)) (sym : String) (s : PosState) :
    List (String × PosState) :=
  match states with
  | [] => [(sym, s)]
  | p :: rest => if p.1 == sym then (sym, s) :: rest else p :: updateState rest sym s

/-- One iteration of the aggregation loop: apply the fill to its symbol's
tracker, subtract the fee from the realized gain, extend the ledger and the
running totals. -/
def agg_step (wallet : String) (acc : AggAcc) (f : NormalizedFill) : AggAcc :=
  let st := lookupState acc.states f.symbol
  let eff := apply_fill st f.side f.size f.price
  let realized := eff.realized - f.fee
  let cum := acc.cumulativePnl + realized
  ⟨updateState acc.states f.symbol eff.state,
   acc.trades ++ [⟨wallet, f.trade_id, f.symbol, f.side, f.size, f.price, f.fee,
     f.timestamp, eff.entry_price, eff.exit_price, realized, cum⟩],
   cum,
   acc.realizedHits + if 0 < realized then 1 else 0⟩

/-- Stable insertion step: the incoming element goes after every element the
predicate lets stand before it. -/
def insertBy (le : α → α → Prop) [DecidableRel le] (x : α) : List α → List α
  | [] => [x]
  | y :: ys => if le y x then y :: insertBy le x ys else x :: y :: ys

/-- Stable sort (models CPython's stable `list.sort`): repeated stable
insertion in input order. -/
def sortBy (le : α → α → Prop) [DecidableRel le] (l : List α) : List α :=
  l.foldl (fun acc x => insertBy le x acc) []

/-- The pure core of `aggregate_trade_history` once all fills are normalized:
sort ascending by timestamp (stable), replay, summarise. -/
def aggregate_normalized (wallet : String) (fills : List NormalizedFill) :
    List Trade × WalletPerformance :=
  let sorted := sortBy (fun a b => a.timestamp ≤ b.timestamp) fills
  let acc := sorted.foldl (agg_step wallet) ⟨[], [], 0, 0⟩
  let trades := acc.trades
  let tradeCount := trades.length
  let latest := trades.getLast?.map (fun t => t.timestamp)
  let totalRealized := (trades.map (fun t => t.realized_pnl)).sum
  let totalFees := (trades.map (fun t => t.fee)).sum
  let winRate : ℚ := if tradeCount ≠ 0 then (acc.realizedHits : ℚ) / tradeCount else 0
  (trades, ⟨wallet, tradeCount, totalRealized, totalFees, winRate, latest⟩)

/-- The normalization pass `[_normalize_fill(wallet, f) for f in fills]` with
`None` results filtered out; the first raised exception aborts the batch. -/
def normalizeAll (wallet : String) : List RawFill → Except PyErr (List NormalizedFill)
  | [] => Except.ok []
  | r :: rest =>
    match normalize_fill wallet r with
    | Except.error e => Except.error e
    | Except.ok none => normalizeAll wallet rest
    | Except.ok (some f) =>
      match normalizeAll wallet rest with
      | Except.error e => Except.error e
      | Except.ok fs => Except.ok (f :: fs)

/-- `aggregate_trade_history(wallet, fills)`. -/
def aggregate_trade_history (wallet : String) (raw : List RawFill) :
    Except PyErr (List Trade × WalletPerformance) :=
  match normalizeAll wallet raw with
  | Except.error e => Except.error e
  | Except.ok fills => Except.ok (aggregate_normalized wallet fills)

/-! ## Return/Backtest Engine (`script/generate_smart_wallet_strategy_report.py`) -/

def HOURS_PER_YEAR : ℕ := 24 * 365

def COST_PER_TURNOVER : ℚ := 5 / 10000

def MIN_ACTIVE_HOURS : ℕ := 8

def TOP_WALLETS : ℕ := 8

/-- Elementwise combination of three lists, truncating to the shortest. -/
def zipWith3 (f : α → β → γ → δ) : List α → List β → List γ → List δ
  | a :: as, b :: bs, c :: cs => f a b c :: zipWith3 f as bs cs
  | _, _, _ => []

/-- `returns_from_close(closes)`: `rets[0] = 0`,
`rets[i] = closes[i]/closes[i-1] - 1`. -/
def returns_from_close (closes : List ℚ) : List ℚ :=
  match closes with
  | [] => []
  | _ :: tail => 0 :: List.zipWith (fun prev cur => cur / prev - 1) closes tail

/-- The position series: `position[0] = 0`, `position[i] = signal[i-1]`
(one-bar execution delay). -/
def positionsOf (signal : List ℤ) : List ℤ :=
  match signal with
  | [] => []
  | _ :: _ => 0 :: signal.dropLast

/-- Strategy returns: `strat[0] = 0`,
`strat[i] = position[i]*rets[i] - |position[i]-position[i-1]|*cost`. -/
def stratRetsOf (position : List ℤ) (rets : List ℚ) (cost : ℚ) : List ℚ :=
  match position, rets with
  | p0 :: ptail, _ :: rtail =>
    0 :: zipWith3 (fun (cur prev : ℤ) (r : ℚ) => (cur : ℚ) * r - ((|cur - prev| : ℤ) : ℚ) * cost)
      ptail (p0 :: ptail) rtail
  | _, _ => []

/-- The equity curve: `[1.0]` extended by cumulative products of
`1 + strat_ret`. -/
def equityOf (stratRets : List ℚ) : List ℚ :=
  List.scanl (fun e r => e * (1 + r)) 1 (stratRets.drop 1)

/-- Running-peak max drawdown over the equity curve. -/
def maxDrawdownOf (equity : List ℚ) : ℚ :=
  (equity.foldl
    (fun pd v =>
      let pk := max pd.1 v
      (pk, min pd.2 (v / pk - 1)))
    (equity.headD 1, 0)).2

/-- Loop state of `trade_stats`. -/
structure TSState where
  trades : ℕ
  wins : ℕ
  inTrade : Bool
  currentPnl : ℚ
deriving DecidableEq

/-- One iteration of the `trade_stats` scan (`prev = position[i-1]`,
`cur = position[i]`, `r = strat_rets[i]`). -/
def tsStep (st : TSState) (prev cur : ℤ) (r : ℚ) : TSState :=
  if cur ≠ 0 ∧ prev = 0 then ⟨st.trades + 1, st.wins, true, r⟩
  else if cur ≠ 0 ∧ cur ≠ prev then
    ⟨st.trades + 1, if st.inTrade ∧ st.currentPnl > 0 then st.wins + 1 else st.wins,
     st.inTrade, r⟩
  else if cur ≠ 0 ∧ st.inTrade then ⟨st.trades, st.wins, st.inTrade, st.currentPnl + r⟩
  else if cur = 0 ∧ prev ≠ 0 ∧ st.inTrade then
    ⟨st.trades, if st.currentPnl + r > 0 then st.wins + 1 else st.wins, false, 0⟩
  else st

/-- `trade_stats(position, strat_rets) -> (trades, win_rate)`. -/
def trade_stats (position : List ℤ) (stratRets : List ℚ) : ℕ × ℚ :=
  let triples := zipWith3 (fun cur prev r => (prev, cur, r))
    position.tail position stratRets.tail
  let fin := triples.foldl (fun st t => tsStep st t.1 t.2.1 t.2.2) ⟨0, 0, false, 0⟩
  let wins := if fin.inTrade ∧ fin.currentPnl > 0 then fin.wins + 1 else fin.wins
  (fin.trades, if fin.trades > 0 then (wins : ℚ) / (fin.trades : ℚ) else 0)

/-- `sum(abs(p) for p in position) / len(position)` (the zero-length division
is guarded ahead of the call in `run_backtest`'s model). -/
def exposureOf (position : List ℤ) : ℚ :=
  (position.map (fun p => ((|p| : ℤ) : ℚ))).sum / (position.length : ℚ)

/-- The exceptions `run_backtest` can raise: the explicit length-mismatch
`ValueError` and float `ZeroDivisionError`. -/
inductive BTErr where
  | lengthMismatch
  | divisionByZero
deriving DecidableEq

structure BacktestResult where
  total_return : ℚ
  cagr : ℝ
  sharpe : ℝ
  max_drawdown : ℚ
  trades : ℕ
  win_rate : ℚ
  exposure : ℚ

/-- `run_backtest(closes, signal, cost)`.  Raise points, in Python's execution
order: the explicit length check; `ZeroDivisionError` from
`closes[i]/closes[i-1]` when an interior close is `0.0`; `ZeroDivisionError`
from the exposure division when the series is empty. -/
noncomputable def run_backtest (closes : List ℚ) (signal : List ℤ) (cost : ℚ) :
    Except BTErr BacktestResult :=
  if closes.length ≠ signal.length then Except.error BTErr.lengthMismatch
  else if closes.dropLast.any (fun c => decide (c = 0)) then Except.error BTErr.divisionByZero
  else if closes.length = 0 then Except.error BTErr.divisionByZero
  else
    let rets := returns_from_close closes
    let position := positionsOf signal
    let stratRets := stratRetsOf position rets cost
    let equity := equityOf stratRets
    let n := closes.length
    let periods : ℕ := max 1 (n - 1)
    let years : ℚ := (periods : ℚ) / (HOURS_PER_YEAR : ℚ)
    let equityFinal := equity.getLastD 1
    let meanRet := (stratRets.drop 1).sum / (periods : ℚ)
    let variance := ((stratRets.drop 1).map (fun r => (r - meanRet) ^ 2)).sum / (periods : ℚ)
    let stdRet : ℝ := Real.sqrt (variance : ℝ)
    let ts := trade_stats position stratRets
    Except.ok
      ⟨equityFinal - 1,
       (if 0 < years then (equityFinal : ℝ) ^ ((1 : ℝ) / (years : ℝ)) - 1 else 0),
       (if 0 < stdRet then ((meanRet : ℝ) / stdRet) * Real.sqrt (HOURS_PER_YEAR : ℝ) else 0),
       maxDrawdownOf equity,
       ts.1,
       ts.2,
       exposureOf position⟩

/-! ## Wallet Scoring & Consensus -/

/-- Hourly signed notional flow to a discrete direction. -/
def wallet_flow_signal (flow : ℚ) : ℤ :=
  if flow > 0 then 1 else if flow < 0 then -1 else 0

/-- `WalletStat`; `weight` involves `math.sqrt` and is modelled in ℝ. -/
structure WalletStat where
  wallet : String
  active_hours : ℕ
  hit_rate : ℚ
  sharpe : ℝ
  total_return : ℚ
  weight : ℝ

/-- The hit-rate scan `for i in range(1, train_end_idx)`: counts
`(correct, total)` over active bars.  Hour buckets are modelled as ℕ keys;
the callers guarantee `train_end_idx ≤ len(times)`, so the Python list
indexing is modelled with a defaulted lookup. -/
def hitLoop (walletSignal : List ℤ) (rets : List ℚ) (trainEnd : ℕ) : ℕ × ℕ :=
  ((List.range trainEnd).drop 1).foldl
    (fun ct i =>
      let prevSig := walletSignal.getD (i - 1) 0
      if prevSig = 0 then ct
      else ((if (prevSig : ℚ) * rets.getD i 0 > 0 then ct.1 + 1 else ct.1), ct.2 + 1))
    (0, 0)

/-- `evaluate_wallet(wallet, flow_by_hour, times, closes, train_end_idx)`:
`.ok none` is the activity rejection, exceptions from the inner backtest and
from `returns_from_close(closes)` propagate. -/
noncomputable def evaluate_wallet (wallet : String) (flowByHour : ℕ → ℚ)
    (times : List ℕ) (closes : List ℚ) (trainEnd : ℕ) :
    Except BTErr (Option WalletStat) :=
  let walletSignal := times.map (fun ts => wallet_flow_signal (flowByHour ts))
  let activeHours := ((walletSignal.take trainEnd).filter (fun s => decide (s ≠ 0))).length
  if activeHours < MIN_ACTIVE_HOURS then Except.ok none
  else
    match run_backtest (closes.take trainEnd) (walletSignal.take trainEnd)
      COST_PER_TURNOVER with
    | Except.error e => Except.error e
    | Except.ok trainBt =>
      if closes.dropLast.any (fun c => decide (c = 0)) then Except.error BTErr.divisionByZero
      else
        let rets := returns_from_close closes
        let ct := hitLoop walletSignal rets trainEnd
        let hitRate : ℚ := if 0 < ct.2 then (ct.1 : ℚ) / (ct.2 : ℚ) else 0
        let edge : ℚ := max (hitRate - 1 / 2) 0
        Except.ok (some ⟨wallet, activeHours, hitRate, trainBt.sharpe,
          trainBt.total_return, (edge : ℝ) * Real.sqrt (activeHours : ℝ)⟩)

/-- The collection loop of `select_wallets`: evaluate each wallet in order,
keep the non-`None` stats, propagate exceptions. -/
noncomputable def collectStats (times : List ℕ) (closes : List ℚ) (trainEnd : ℕ) :
    List (String × (ℕ → ℚ)) → Except BTErr (List WalletStat)
  | [] => Except.ok []
  | (w, f) :: rest =>
    match evaluate_wallet w f times closes trainEnd with
    | Except.error e => Except.error e
    | Except.ok none => collectStats times closes trainEnd rest
    | Except.ok (some s) =>
      match collectStats times closes trainEnd rest with
      | Except.error e => Except.error e
      | Except.ok tail => Except.ok (s :: tail)

/-- Descending-stable order on `(weight, sharpe)`: an element stays before the
incoming one iff its key is lexicographically ≥ the incoming key.  Models
`stats.sort(key=lambda x: (x.weight, x.sharpe), reverse=True)`. -/
def statKeyGe (a b : WalletStat) : Prop :=
  b.weight < a.weight ∨ (b.weight = a.weight ∧ b.sharpe ≤ a.sharpe)

open Classical in
/-- `select_wallets`: collect, sort descending by `(weight, sharpe)` (stable),
keep strictly positive weights, take the top `TOP_WALLETS`. -/
noncomputable def select_wallets (walletFlow : List (String × (ℕ → ℚ)))
    (times : List ℕ) (closes : List ℚ) (trainEnd : ℕ) :
    Except BTErr (List WalletStat) :=
  match collectStats times closes trainEnd walletFlow with
  | Except.error e => Except.error e
  | Except.ok stats =>
    Except.ok (((sortBy statKeyGe stats).filter
      (fun s => decide (0 < s.weight))).take TOP_WALLETS)

open Classical in
/-- `build_combined_signal(wallet_stats, wallet_flow, times, threshold)`.
Selected wallets have pairwise-distinct names (they come from dict keys), so
the weight dict is modelled as the stat list itself. -/
noncomputable def build_combined_signal (stats : List WalletStat)
    (walletFlow : String → ℕ → ℚ) (times : List ℕ) (threshold : ℝ) : List ℤ :=
  let totalWeight : ℝ := (stats.map (fun w => w.weight)).sum
  if totalWeight ≤ 0 then times.map (fun _ => 0)
  else
    times.map (fun ts =>
      let score : ℝ := (stats.map (fun w =>
        w.weight / totalWeight * ((wallet_flow_signal (walletFlow w.wallet ts) : ℤ) : ℝ))).sum
      if score > threshold then 1 else if score < -threshold then -1 else 0)

/-! ## Concrete inputs used by witnesses and counterexamples -/

def c1fills : List Fill := [⟨Side.buy, 1, 100⟩, ⟨Side.sell, 1, 120⟩]

/-- One time key of a record is "suppressed" when it is absent/`None` or its
timestamp parse raises one of the exception classes `_fill_sort_key`
swallows. -/
def timeKeySuppressed (f : RawFill) (k : String) : Bool :=
  if pyIsNone (pyGet f k) then true
  else
    match parse_timestamp (pyGet f k) with
    | Except.ok _ => false
    | Except.error e => catchable e

/-- All three time keys (`time`/`timestamp`/`ts`) of a record are suppressed:
the record's timestamp cannot be parsed (short of an uncaught exception). -/
def timeKeysSuppressed (f : RawFill) : Bool :=
  ["time", "timestamp", "ts"].all fun k => timeKeySuppressed f k

/-- A raw fill that is valid except for an unparsable `time` string. -/
def c3rec : RawFill :=
  [("coin", PyVal.vstr "BTC"), ("sz", PyVal.vnum 1), ("px", PyVal.vnum 100),
   ("time", PyVal.vstr "garbage")]

/-- A raw fill whose `time` field is a numeric value far beyond the `time_t`
range. -/
def c4rec : RawFill :=
  [("coin", PyVal.vstr "BTC"), ("sz", PyVal.vnum 1), ("px", PyVal.vnum 100),
   ("time", PyVal.vnum (10 ^ 300))]

/-- The spec's worked example, fill 1: buy 1.0 @ 100, fee 0. -/
def rec7a : RawFill :=
  [("coin", PyVal.vstr "BTC"), ("side", PyVal.vstr "buy"), ("sz", PyVal.vnum 1),
   ("px", PyVal.vnum 100), ("fee", PyVal.vnum 0), ("time", PyVal.vnum 1),
   ("tid", PyVal.vstr "1")]

/-- The spec's worked example, fill 2: buy 1.0 @ 110, fee 0. -/
def rec7b : RawFill :=
  [("coin", PyVal.vstr "BTC"), ("side", PyVal.vstr "buy"), ("sz", PyVal.vnum 1),
   ("px", PyVal.vnum 110), ("fee", PyVal.vnum 0), ("time", PyVal.vnum 2),
   ("tid", PyVal.vstr "2")]

/-- The spec's worked example, fill 3: sell 1.5 @ 130, fee 1. -/
def rec7c : RawFill :=
  [("coin", PyVal.vstr "BTC"), ("side", PyVal.vstr "sell"), ("sz", PyVal.vnum (3 / 2)),
   ("px", PyVal.vnum 130), ("fee", PyVal.vnum 1), ("time", PyVal.vnum 3),
   ("tid", PyVal.vstr "3")]

def nf7a : NormalizedFill := ⟨"1", "BTC", Side.buy, 1, 100, 0, 1⟩

def nf7b : NormalizedFill := ⟨"2", "BTC", Side.buy, 1, 110, 0, 2⟩

def nf7c : NormalizedFill := ⟨"3", "BTC", Side.sell, 3 / 2, 130, 1, 3⟩

def t7a : Trade := ⟨"0xwallet", "1", "BTC", Side.buy, 1, 100, 0, 1, 100, 0, 0, 0⟩

def t7b : Trade := ⟨"0xwallet", "2", "BTC", Side.buy, 1, 110, 0, 2, 105, 0, 0, 0⟩

def t7c : Trade := ⟨"0xwallet", "3", "BTC", Side.sell, 3 / 2, 130, 1, 3, 105, 130, 73 / 2, 73 / 2⟩

/-- A wallet flow active on exactly 7 of the first 10 hour buckets. -/
def wflow8 : ℕ → ℚ := fun t => if t < 7 then 1 else 0

def times8 : List ℕ := [0, 1, 2, 3, 4, 5, 6, 7, 8, 9]

/-- The weighted consensus score `build_combined_signal` computes for one hour
bucket (weights normalized by the total weight). -/
noncomputable def consensusScore (stats : List WalletStat)
    (walletFlow : String → ℕ → ℚ) (ts : ℕ) : ℝ :=
  (stats.map (fun w =>
    w.weight / (stats.map (fun w2 => w2.weight)).sum *
      ((wallet_flow_signal (walletFlow w.wallet ts) : ℤ) : ℝ))).sum

/-- A selected wallet carrying normalized weight 1. -/
def stat9 : WalletStat := ⟨"w", 8, 1, 0, 0, 1⟩

def flow9 : String → ℕ → ℚ := fun _ _ => 1

/-! ## Theorems -/

/-- Single-step form of the flat-reset invariant on the core: a fill with a
nonzero signed delta that leaves the tracker flat also leaves
`average_entry = 0`. -/
theorem applyFillCore_flat_entry (s : PosState) (chg price : ℚ) (hchg : chg ≠ 0)
    (h0 : (applyFillCore s chg price).state.signed_size = 0) :
    (applyFillCore s chg price).state.average_entry = 0 := by
  simp only [applyFillCore] at h0 ⊢
  split_ifs at h0 ⊢ with h1 h2 h3 <;> simp_all
  rcases h1 with ⟨hp, hc⟩ | ⟨hp, hc⟩ <;> linarith

/-- Single-step form of the flat-reset invariant: a fill of positive size that
leaves the tracker flat also leaves `average_entry = 0`. -/
theorem apply_fill_flat_entry (s : PosState) (side : Side) (size price : ℚ)
    (hsize : 0 < size)
    (h0 : (apply_fill s side size price).state.signed_size = 0) :
    (apply_fill s side size price).state.average_entry = 0 := by
  refine applyFillCore_flat_entry s _ price ?_ h0
  cases side <;> simp <;> linarith

/-- C1: for every sequence of fills (each with positive size and price)
applied in order to a fresh Position State Tracker via `apply_fill`, after any
fill whose application leaves `signed_size` exactly 0 (i.e. after any prefix of
the sequence ending in such a fill), `average_entry` is exactly 0. -/
theorem c1_flat_position_zero_entry (fills : List Fill)
    (hval : ∀ f ∈ fills, 0 < f.size ∧ 0 < f.price)
    (p : List Fill) (hp : ∃ q, p ++ q = fills)
    (h0 : (replay p).signed_size = 0) : (replay p).average_entry = 0 := by
  induction p using List.reverseRecOn with
  | nil => simp [replay]
  | append_singleton q a _ =>
    have hmem : a ∈ fills := by
      obtain ⟨t, rfl⟩ := hp
      simp
    have hsz : 0 < a.size := (hval a hmem).1
    rw [replay, List.foldl_append, List.foldl_cons, List.foldl_nil] at h0 ⊢
    exact apply_fill_flat_entry _ _ _ _ hsz h0

/-- C1 witness: a long opened at 100 and fully closed at 120 ends flat with
`average_entry = 0`. -/
theorem c1_witness : (replay c1fills).average_entry = 0 :=
  c1_flat_position_zero_entry c1fills
    (by
      intro f hf
      fin_cases hf <;> exact ⟨by norm_num, by norm_num⟩)
    c1fills ⟨[], by simp⟩
    (by simp [replay, c1fills, apply_fill, applyFillCore]; norm_num)

/-- The last element of a ledger just extended by one trade. -/
theorem getLastD_append_singleton (l : List α) (a d : α) : (l ++ [a]).getLastD d = a := by
  induction l generalizing d with
  | nil => rfl
  | cons x xs ih => rw [List.cons_append, List.getLastD_cons, ih]

/-- In the reducing/flipping branch, `apply_fill`'s realized P&L (before fees)
is `min(|S|, |Δ|) · (price − E) · sign(S)`. -/
theorem applyFillCore_reducing_realized (s : PosState) (chg price : ℚ)
    (hopp : (0 < s.signed_size ∧ chg < 0) ∨ (s.signed_size < 0 ∧ 0 < chg)) :
    (applyFillCore s chg price).realized =
      min |s.signed_size| |chg| * (price - s.average_entry) *
        (if 0 < s.signed_size then 1 else -1) := by
  simp only [applyFillCore]
  have h1 : ¬(s.signed_size = 0 ∨ (s.signed_size > 0 ∧ chg > 0) ∨
      (s.signed_size < 0 ∧ chg < 0)) := by
    rcases hopp with ⟨hp, hc⟩ | ⟨hp, hc⟩ <;> push_neg <;>
      exact ⟨fun h => by linarith, fun h => by linarith, fun h => by linarith⟩
  rw [if_neg h1]
  split_ifs <;> rfl

/-- C2: for every fill that fully closes an open position (previous
`signed_size` S ≠ 0, opposite-sign delta with |Δ| ≥ |S|), the `realized_pnl`
the Trade Aggregator records for that fill (its per-fill step `agg_step`)
equals `closing_size · (exit_price − entry_price) · direction − fee`, with
`closing_size = min(|S|, |Δ|)`, `entry_price` the tracker's `average_entry`
before the fill, `exit_price` the fill price, and `direction = ±1` by the sign
of S. -/
theorem c2_full_close_realized_pnl (wallet : String) (acc : AggAcc) (f : NormalizedFill)
    (hS : (lookupState acc.states f.symbol).signed_size ≠ 0)
    (hopp : (0 < (lookupState acc.states f.symbol).signed_size ∧ f.side = Side.sell) ∨
            ((lookupState acc.states f.symbol).signed_size < 0 ∧ f.side = Side.buy))
    (hfull : |(lookupState acc.states f.symbol).signed_size| ≤ f.size) :
    ((agg_step wallet acc f).trades.getLastD defaultTrade).realized_pnl =
      min |(lookupState acc.states f.symbol).signed_size| f.size *
        (f.price - (lookupState acc.states f.symbol).average_entry) *
        (if 0 < (lookupState acc.states f.symbol).signed_size then 1 else -1) - f.fee := by
  have hsize : 0 < f.size := lt_of_lt_of_le (abs_pos.mpr hS) hfull
  simp only [agg_step, getLastD_append_singleton]
  rcases hopp with ⟨hp, hside⟩ | ⟨hp, hside⟩
  · have hchg : (if f.side = Side.buy then f.size else -f.size) = -f.size := by
      rw [hside]; simp
    simp only [apply_fill, hchg]
    rw [applyFillCore_reducing_realized _ _ _ (Or.inl ⟨hp, by linarith⟩)]
    rw [abs_neg, abs_of_pos hsize]
  · have hchg : (if f.side = Side.buy then f.size else -f.size) = f.size := by
      rw [hside]; simp
    simp only [apply_fill, hchg]
    rw [applyFillCore_reducing_realized _ _ _ (Or.inr ⟨hp, hsize⟩)]
    rw [abs_of_pos hsize]

/-- C2 witness: closing a 2-lot long from average entry 100 with a 3-lot sell
at 110 and fee 1 realizes `2·(110−100)·1 − 1 = 19`. -/
theorem c2_witness :
    ((agg_step "w" ⟨[("BTC", ⟨2, 100⟩)], [], 0, 0⟩
        ⟨"t1", "BTC", Side.sell, 3, 110, 1, 0⟩).trades.getLastD defaultTrade).realized_pnl =
      min |(lookupState [("BTC", (⟨2, 100⟩ : PosState))] "BTC").signed_size| 3 *
        (110 - (lookupState [("BTC", (⟨2, 100⟩ : PosState))] "BTC").average_entry) *
        (if 0 < (lookupState [("BTC", (⟨2, 100⟩ : PosState))] "BTC").signed_size then 1 else -1)
        - 1 :=
  c2_full_close_realized_pnl "w" ⟨[("BTC", ⟨2, 100⟩)], [], 0, 0⟩
    ⟨"t1", "BTC", Side.sell, 3, 110, 1, 0⟩
    (by norm_num [lookupState])
    (Or.inl ⟨by norm_num [lookupState], rfl⟩)
    (by norm_num [lookupState])

/-- C10 (implicit): with both series empty — the equal-length precondition
holds — `run_backtest` raises `ZeroDivisionError` (from the exposure division
by `len(position) = 0`) instead of returning a `BacktestResult`, for every
cost. -/
theorem c10_empty_series_division_by_zero (cost : ℚ) :
    run_backtest [] [] cost = Except.error BTErr.divisionByZero := by
  simp [run_backtest]

/-- C5: `run_backtest` fails with the length-mismatch error exactly when the
two series have different lengths; with equal lengths that error is never
raised. -/
theorem c5_length_mismatch_iff (closes : List ℚ) (signal : List ℤ) (cost : ℚ) :
    run_backtest closes signal cost = Except.error BTErr.lengthMismatch ↔
      closes.length ≠ signal.length := by
  constructor
  · intro h
    unfold run_backtest at h
    split_ifs at h <;> first | assumption | simp at h
  · intro hne
    unfold run_backtest
    rw [if_pos hne]

/-- C5 witness: a 1-bar price series against an empty signal series raises the
length-mismatch error. -/
theorem c5_witness : run_backtest [1] [] 0 = Except.error BTErr.lengthMismatch :=
  (c5_length_mismatch_iff [1] [] 0).mpr (by simp)

/-- The last entry of a `scanl` is the corresponding `foldl`. -/
theorem getLastD_scanl (f : ℚ → ℚ → ℚ) (b d : ℚ) (l : List ℚ) :
    (List.scanl f b l).getLastD d = l.foldl f b := by
  induction l generalizing b d with
  | nil => rfl
  | cons x xs ih =>
    rw [List.scanl_cons, List.singleton_append, List.getLastD_cons, ih, List.foldl_cons]

/-- Telescoping of the equity product over simple returns: multiplying
`1 + (cur/prev - 1)` along consecutive closes leaves `last/first`. -/
theorem foldl_equity_telescope (l : List ℚ) (a e : ℚ) (ha : a ≠ 0)
    (hl : ∀ x ∈ l, x ≠ 0) :
    List.foldl (fun acc r => acc * (1 + r)) e
      (List.zipWith (fun prev cur => cur / prev - 1) (a :: l) l) =
      e * l.getLastD a / a := by
  induction l generalizing a e with
  | nil =>
    simp only [List.zipWith_nil_right, List.foldl_nil, List.getLastD_nil]
    rw [mul_div_assoc, div_self ha, mul_one]
  | cons b t ih =>
    have hb : b ≠ 0 := hl b (by simp)
    simp only [List.zipWith_cons_cons, List.foldl_cons, List.getLastD_cons]
    rw [ih b (e * (1 + (b / a - 1))) hb (fun x hx => hl x (by simp [hx]))]
    have : e * (1 + (b / a - 1)) = e * b / a := by ring
    rw [this]
    field_simp
    ring

/-- With a constant long position and zero cost, the strategy returns are the
raw returns. -/
theorem zipWith3_ones_cost_zero (rt : List ℚ) :
    ∀ bs : List ℤ, rt.length ≤ bs.length →
    zipWith3 (fun (cur prev : ℤ) (r : ℚ) => (cur : ℚ) * r - ((|cur - prev| : ℤ) : ℚ) * 0)
      (List.replicate rt.length 1) bs rt = rt := by
  induction rt with
  | nil => intro bs _; rfl
  | cons r rs ih =>
    intro bs hlen
    match bs, hlen with
    | b :: bs', hlen =>
      simp only [List.length_cons, List.replicate_succ, zipWith3]
      congr 1
      · push_cast
        ring
      · exact ih bs' (Nat.succ_le_succ_iff.mp (by simpa using hlen))

/-- Folding the `trade_stats` scan over bars where the position stays 1 while
a trade is open neither opens nor closes trades. -/
theorem tsFold_ones (rs : List ℚ) :
    ∀ (k k' : ℕ) (st : TSState), st.inTrade = true →
    ((zipWith3 (fun (cur prev : ℤ) (r : ℚ) => (prev, cur, r))
        (List.replicate k 1) (List.replicate k' 1) rs).foldl
      (fun s t => tsStep s t.1 t.2.1 t.2.2) st).trades = st.trades ∧
    ((zipWith3 (fun (cur prev : ℤ) (r : ℚ) => (prev, cur, r))
        (List.replicate k 1) (List.replicate k' 1) rs).foldl
      (fun s t => tsStep s t.1 t.2.1 t.2.2) st).inTrade = true := by
  induction rs with
  | nil =>
    intro k k' st h
    cases k <;> cases k' <;> exact ⟨rfl, h⟩
  | cons r rs' ih =>
    intro k k' st h
    match k, k' with
    | 0, _ => exact ⟨rfl, h⟩
    | Nat.succ k, 0 => exact ⟨rfl, h⟩
    | Nat.succ k, Nat.succ k' =>
      simp only [List.replicate_succ, zipWith3, List.foldl_cons]
      have hstep : tsStep st 1 1 r = ⟨st.trades, st.wins, st.inTrade, st.currentPnl + r⟩ := by
        simp [tsStep, h]
      rw [hstep]
      exact ih k k' _ h

/-- `trade_stats` counts exactly one trade for the position series
`[0, 1, 1, ..., 1]` (a single flat-to-long transition). -/
theorem trade_stats_const_one (m : ℕ) (x r0 : ℚ) (rrest : List ℚ) :
    (trade_stats (0 :: List.replicate (m + 1) 1) (x :: r0 :: rrest)).1 = 1 := by
  unfold trade_stats
  simp only [List.replicate_succ, List.tail_cons, zipWith3, List.foldl_cons]
  have hstep : tsStep ⟨0, 0, false, 0⟩ 0 1 r0 = ⟨1, 0, true, r0⟩ := by
    simp [tsStep]
  rw [hstep]
  have := tsFold_ones rrest m (m + 1) ⟨1, 0, true, r0⟩ rfl
  simp only [List.replicate_succ] at this
  exact this.1

/-- `dropLast` of a constant list. -/
theorem dropLast_replicate_succ (n : ℕ) (a : ℤ) :
    (List.replicate (n + 1) a).dropLast = List.replicate n a := by
  induction n with
  | zero => rfl
  | succ k ih =>
    show (a :: a :: List.replicate k a).dropLast = a :: List.replicate k a
    rw [List.dropLast_cons₂]
    exact congrArg (List.cons a) ih

/-- C6: on a strictly increasing (positive) price series of length ≥ 2, the
backtest of the constant all-long signal with zero cost returns the
buy-and-hold total return `last/first − 1` and counts exactly one trade. -/
theorem c6_constant_long_buy_and_hold (closes : List ℚ) (h2 : 2 ≤ closes.length)
    (hpos : ∀ x ∈ closes, 0 < x) (_hmono : List.Chain' (· < ·) closes) :
    ∃ res, run_backtest closes (List.replicate closes.length 1) 0 = Except.ok res ∧
      res.total_return = closes.getLastD 0 / closes.headD 0 - 1 ∧ res.trades = 1 := by
  rcases closes with _ | ⟨c0, _ | ⟨c1, cs⟩⟩
  · simp at h2
  · simp at h2
  · have hc0 : c0 ≠ 0 := ne_of_gt (hpos c0 (by simp))
    have htail : ∀ x ∈ c1 :: cs, x ≠ 0 :=
      fun x hx => ne_of_gt (hpos x (List.mem_cons_of_mem _ hx))
    have hany : ((c0 :: c1 :: cs).dropLast.any fun c => decide (c = 0)) = false := by
      rw [List.any_eq_false]
      intro x hx
      have hx2 : x ∈ c0 :: c1 :: cs := List.dropLast_subset _ hx
      simpa using ne_of_gt (hpos x hx2)
    unfold run_backtest
    rw [if_neg (by simp), if_neg (by rw [hany]; simp), if_neg (by simp)]
    refine ⟨_, rfl, ?_, ?_⟩
    · -- total_return = last/first - 1
      dsimp only
      have hpositions : positionsOf (List.replicate (c0 :: c1 :: cs).length 1) =
          0 :: List.replicate (cs.length + 1) 1 := by
        simp only [List.length_cons, List.replicate_succ, positionsOf]
        rw [← List.replicate_succ, ← List.replicate_succ, dropLast_replicate_succ]
      rw [hpositions]
      have hrets : returns_from_close (c0 :: c1 :: cs) =
          0 :: List.zipWith (fun prev cur => cur / prev - 1) (c0 :: c1 :: cs) (c1 :: cs) := rfl
      rw [hrets]
      have hlen_rt :
          (List.zipWith (fun prev cur => cur / prev - 1) (c0 :: c1 :: cs) (c1 :: cs)).length =
            cs.length + 1 := by
        rw [List.length_zipWith]
        simp
      have hstrat : stratRetsOf (0 :: List.replicate (cs.length + 1) 1)
          (0 :: List.zipWith (fun prev cur => cur / prev - 1) (c0 :: c1 :: cs) (c1 :: cs)) 0 =
          0 :: List.zipWith (fun prev cur => cur / prev - 1) (c0 :: c1 :: cs) (c1 :: cs) := by
        simp only [stratRetsOf]
        rw [← hlen_rt, zipWith3_ones_cost_zero]
        simp
      rw [hstrat]
      simp only [equityOf, List.drop_succ_cons, List.drop_zero]
      rw [getLastD_scanl]
      rw [foldl_equity_telescope (c1 :: cs) c0 1 hc0 htail]
      simp only [List.getLastD_cons, List.headD_cons, one_mul]
    · -- trades = 1
      dsimp only
      have hpositions : positionsOf (List.replicate (c0 :: c1 :: cs).length 1) =
          0 :: List.replicate (cs.length + 1) 1 := by
        simp only [List.length_cons, List.replicate_succ, positionsOf]
        rw [← List.replicate_succ, ← List.replicate_succ, dropLast_replicate_succ]
      rw [hpositions]
      have hrets : returns_from_close (c0 :: c1 :: cs) =
          0 :: (c1 / c0 - 1) ::
            List.zipWith (fun prev cur => cur / prev - 1) (c1 :: cs) cs := rfl
      rw [hrets]
      have hlen_rt :
          ((c1 / c0 - 1) :: List.zipWith (fun prev cur => cur / prev - 1) (c1 :: cs) cs).length =
            cs.length + 1 := by
        rw [List.length_cons, List.length_zipWith]
        simp
      have hstrat : stratRetsOf (0 :: List.replicate (cs.length + 1) 1)
          (0 :: (c1 / c0 - 1) :: List.zipWith (fun prev cur => cur / prev - 1) (c1 :: cs) cs) 0 =
          0 :: (c1 / c0 - 1) :: List.zipWith (fun prev cur => cur / prev - 1) (c1 :: cs) cs := by
        simp only [stratRetsOf]
        rw [← hlen_rt, zipWith3_ones_cost_zero]
        simp
      rw [hstrat]
      exact trade_stats_const_one cs.length 0 (c1 / c0 - 1) _

/-- C6 witness: on the series `[1, 2, 4]` with constant signal 1 and zero
cost, `total_return = 4/1 − 1` and exactly one trade is counted. -/
theorem c6_witness :
    ∃ res, run_backtest [1, 2, 4] (List.replicate ([1, 2, 4] : List ℚ).length 1) 0 =
        Except.ok res ∧
      res.total_return = ([1, 2, 4] : List ℚ).getLastD 0 / ([1, 2, 4] : List ℚ).headD 0 - 1 ∧
      res.trades = 1 :=
  c6_constant_long_buy_and_hold [1, 2, 4] (by norm_num)
    (by intro x hx; fin_cases hx <;> norm_num)
    (by norm_num)

/-- When every key of the scan list is suppressed, `_fill_sort_key` falls back
to the epoch. -/
theorem fillSortKeyGo_suppressed (f : RawFill) (ks : List String)
    (h : ∀ k ∈ ks, timeKeySuppressed f k = true) : fillSortKeyGo f ks = Except.ok 0 := by
  induction ks with
  | nil => rfl
  | cons k ks ih =>
    have hk := h k (by simp)
    have hrest := ih fun k' hk' => h k' (by simp [hk'])
    unfold timeKeySuppressed at hk
    unfold fillSortKeyGo
    by_cases hn : pyIsNone (pyGet f k) = true
    · rw [if_pos hn]
      exact hrest
    · rw [if_neg hn] at hk ⊢
      rcases hp : parse_timestamp (pyGet f k) with e | t
      · rw [hp] at hk
        have hk2 : catchable e = true := hk
        show (if catchable e = true then fillSortKeyGo f ks else Except.error e) = Except.ok 0
        rw [if_pos hk2]
        exact hrest
      · rw [hp] at hk
        exact absurd (show false = true from hk) (by simp)

/-- C3 counterexample: a record whose `time` field cannot be parsed (a plain
`ValueError` from every parser) is NOT rejected — `_normalize_fill` returns a
normalized fill (with the epoch as its timestamp) rather than `None`. -/
theorem c3_counterexample :
    parse_timestamp (PyVal.vstr "garbage") = Except.error PyErr.valueError ∧
    normalize_fill "0xw" c3rec =
      Except.ok (some ⟨"0xw:BTC:garbage", "BTC", Side.buy, 1, 100, 0, 0⟩) :=
  ⟨rfl, rfl⟩

/-- C3 (amended): a raw fill record whose time fields all fail to parse with a
suppressed exception class (TypeError/ValueError) is not rejected on that
ground: `_fill_sort_key` falls back to the epoch, and the normalizer either
rejects the record for an unrelated reason (symbol/size/price) or returns a
fill whose timestamp is the epoch (0).  Each record is processed
independently, so other records in a batch are unaffected. -/
theorem c3_unparsable_time_epoch_fallback (wallet : String) (fill : RawFill)
    (h : timeKeysSuppressed fill = true) :
    fill_sort_key fill = Except.ok 0 ∧
    ∃ r, normalize_fill wallet fill = Except.ok r ∧
      ∀ nf, r = some nf → nf.timestamp = 0 := by
  have hsort : fill_sort_key fill = Except.ok 0 := by
    apply fillSortKeyGo_suppressed
    intro k hk
    unfold timeKeysSuppressed at h
    rw [List.all_eq_true] at h
    exact h k hk
  refine ⟨hsort, ?_⟩
  unfold normalize_fill
  rw [hsort]
  dsimp only
  split_ifs <;>
    first
      | exact ⟨none, rfl, fun nf h' => absurd h' (by simp)⟩
      | exact ⟨some _, rfl, fun nf h' => by injection h' with h2; rw [← h2]⟩

/-- C3 witness: the concrete unparsable-time record `c3rec` takes the epoch
fallback and is kept. -/
theorem c3_witness :
    fill_sort_key c3rec = Except.ok 0 ∧
    ∃ r, normalize_fill "0xw" c3rec = Except.ok r ∧
      ∀ nf, r = some nf → nf.timestamp = 0 :=
  c3_unparsable_time_epoch_fallback "0xw" c3rec (by rfl)

/-- A numeric time value of `10^300` overflows `datetime.fromtimestamp`
(`OverflowError`, outside the classes `_fill_sort_key` suppresses). -/
theorem parse_timestamp_huge_overflow :
    parse_timestamp (PyVal.vnum (10 ^ 300)) = Except.error PyErr.overflowError := by
  simp only [parse_timestamp]
  rw [if_pos (by norm_num)]
  unfold fromtimestampE
  rw [if_pos (Or.inl (by norm_num [timeTMax]))]

/-- C4 is a code bug: the Fill Normalizer is specified never to raise, but on
a record whose time field holds a huge numeric value the uncaught
`OverflowError` from `datetime.fromtimestamp` propagates out of
`_normalize_fill` (and would abort the whole batch). -/
theorem c4_normalize_fill_raises :
    normalize_fill "0xw" c4rec = Except.error PyErr.overflowError := by
  have hts : fill_sort_key c4rec = Except.error PyErr.overflowError := by
    unfold fill_sort_key fillSortKeyGo
    rw [if_neg (by rw [show pyIsNone (pyGet c4rec "time") = false from rfl]; simp)]
    rw [show pyGet c4rec "time" = PyVal.vnum (10 ^ 300) from rfl,
      parse_timestamp_huge_overflow]
    rfl
  unfold normalize_fill
  rw [hts]
  rfl

/-- C7: the spec's worked example `[buy 1.0@100, buy 1.0@110, sell 1.5@130
fee=1]` replayed through the Trade Aggregator: the tracker's `average_entry`
before the third fill is 105, the third trade's `realized_pnl` is
`1.5·(130−105) − 1 = 36.5 = 73/2`, and the wallet's `total_realized_pnl` is
`73/2`. -/
theorem c7_worked_example :
    normalizeAll "0xwallet" [rec7a, rec7b, rec7c] = Except.ok [nf7a, nf7b, nf7c] ∧
    (List.foldl (agg_step "0xwallet") ⟨[], [], 0, 0⟩ [nf7a, nf7b]).states =
      [("BTC", ⟨2, 105⟩)] ∧
    ∃ trades perf,
      aggregate_trade_history "0xwallet" [rec7a, rec7b, rec7c] = Except.ok (trades, perf) ∧
      (trades.getD 2 defaultTrade).entry_price = 105 ∧
      (trades.getD 2 defaultTrade).realized_pnl = 73 / 2 ∧
      perf.total_realized_pnl = 73 / 2 := by
  have hnc : normalize_fill "0xwallet" rec7c = Except.ok (some nf7c) := by
    unfold normalize_fill
    dsimp only
    rw [show safeFloat [pyGet rec7c "sz", pyGet rec7c "size", pyGet rec7c "sizeDelta"] 0
        = 3 / 2 from rfl]
    rw [show safeFloat [pyGet rec7c "px", pyGet rec7c "price", pyGet rec7c "avgPx"] 0
        = 130 from rfl]
    rw [show |(3 / 2 : ℚ)| = 3 / 2 by norm_num]
    rw [if_neg (by decide)]
    rw [if_neg (by norm_num)]
    rw [if_neg (by norm_num)]
    rw [show fill_sort_key rec7c = Except.ok 3 from rfl]
    rfl
  have hnorm : normalizeAll "0xwallet" [rec7a, rec7b, rec7c] =
      Except.ok [nf7a, nf7b, nf7c] := by
    simp only [normalizeAll,
      show normalize_fill "0xwallet" rec7a = Except.ok (some nf7a) from rfl,
      show normalize_fill "0xwallet" rec7b = Except.ok (some nf7b) from rfl, hnc]
  have h1 : agg_step "0xwallet" ⟨[], [], 0, 0⟩ nf7a = ⟨[("BTC", ⟨1, 100⟩)], [t7a], 0, 0⟩ := by
    norm_num [agg_step, lookupState, updateState, apply_fill, applyFillCore, nf7a,
      List.find?, t7a]
  have h2 : agg_step "0xwallet" ⟨[("BTC", ⟨1, 100⟩)], [t7a], 0, 0⟩ nf7b =
      ⟨[("BTC", ⟨2, 105⟩)], [t7a, t7b], 0, 0⟩ := by
    norm_num [agg_step, lookupState, updateState, apply_fill, applyFillCore, nf7b,
      List.find?, t7a, t7b]
  have h3 : agg_step "0xwallet" ⟨[("BTC", ⟨2, 105⟩)], [t7a, t7b], 0, 0⟩ nf7c =
      ⟨[("BTC", ⟨1 / 2, 105⟩)], [t7a, t7b, t7c], 73 / 2, 1⟩ := by
    simp [agg_step, lookupState, updateState, apply_fill, applyFillCore, nf7c, List.find?,
      t7a, t7b, t7c]
    rw [show ((2 : ℚ) ⊓ |3 / 2|) = 3 / 2 by
      rw [show |(3 : ℚ) / 2| = 3 / 2 from by norm_num]
      exact min_eq_right (by norm_num)]
    norm_num
  have hagg : aggregate_normalized "0xwallet" [nf7a, nf7b, nf7c] =
      ([t7a, t7b, t7c], ⟨"0xwallet", 3, 73 / 2, 1, 1 / 3, some 3⟩) := by
    unfold aggregate_normalized
    rw [show sortBy (fun (a b : NormalizedFill) => a.timestamp ≤ b.timestamp)
        [nf7a, nf7b, nf7c] = [nf7a, nf7b, nf7c] from rfl]
    dsimp only
    rw [List.foldl_cons, h1, List.foldl_cons, h2, List.foldl_cons, h3, List.foldl_nil]
    norm_num [t7a, t7b, t7c]
  refine ⟨hnorm, ?_, ?_⟩
  · rw [List.foldl_cons, h1, List.foldl_cons, h2, List.foldl_nil]
  · refine ⟨[t7a, t7b, t7c], ⟨"0xwallet", 3, 73 / 2, 1, 1 / 3, some 3⟩, ?_, rfl, rfl, rfl⟩
    unfold aggregate_trade_history
    rw [hnorm]
    dsimp only
    rw [hagg]

/-- Membership is preserved by stable insertion. -/
theorem mem_insertBy (le : α → α → Prop) [DecidableRel le] (x a : α) (l : List α) :
    a ∈ insertBy le x l ↔ a = x ∨ a ∈ l := by
  induction l with
  | nil => simp [insertBy]
  | cons y ys ih =>
    unfold insertBy
    split_ifs
    · rw [List.mem_cons, ih, List.mem_cons]
      tauto
    · rw [List.mem_cons, List.mem_cons]

/-- Membership is preserved by the stable sort. -/
theorem mem_sortBy (le : α → α → Prop) [DecidableRel le] (a : α) (l : List α) :
    a ∈ sortBy le l ↔ a ∈ l := by
  have key : ∀ (l acc : List α),
      (a ∈ l.foldl (fun acc x => insertBy le x acc) acc ↔ a ∈ acc ∨ a ∈ l) := by
    intro l
    induction l with
    | nil => intro acc; simp
    | cons x xs ih =>
      intro acc
      rw [List.foldl_cons, ih, mem_insertBy]
      simp only [List.mem_cons]
      tauto
  rw [sortBy, key]
  simp

/-- A stat produced by `evaluate_wallet` carries the evaluated wallet's name. -/
theorem evaluate_wallet_name (w' : String) (f : ℕ → ℚ) (times : List ℕ)
    (closes : List ℚ) (trainEnd : ℕ) (s : WalletStat)
    (h : evaluate_wallet w' f times closes trainEnd = Except.ok (some s)) :
    s.wallet = w' := by
  unfold evaluate_wallet at h
  dsimp only at h
  split at h
  · simp at h
  · split at h
    · simp at h
    · split at h
      · simp at h
      · simp only [Except.ok.injEq, Option.some.injEq] at h
        rw [← h]

/-- Every stat collected by `select_wallets`' evaluation loop comes from the
evaluation of one of the candidate wallets. -/
theorem collectStats_mem (times : List ℕ) (closes : List ℚ) (trainEnd : ℕ) :
    ∀ (wf : List (String × (ℕ → ℚ))) (stats : List WalletStat),
      collectStats times closes trainEnd wf = Except.ok stats →
      ∀ s ∈ stats, ∃ p, p ∈ wf ∧
        evaluate_wallet p.1 p.2 times closes trainEnd = Except.ok (some s) := by
  intro wf
  induction wf with
  | nil =>
    intro stats h s hs
    simp only [collectStats, Except.ok.injEq] at h
    subst h
    simp at hs
  | cons p rest ih =>
    rcases p with ⟨w', f⟩
    intro stats h s hs
    unfold collectStats at h
    split at h
    · simp at h
    · next heval =>
      exact
        let ⟨q, hq, he⟩ := ih stats h s hs
        ⟨q, List.mem_cons_of_mem _ hq, he⟩
    · next s' heval =>
      split at h
      · simp at h
      · next tail htail =>
        simp only [Except.ok.injEq] at h
        subst h
        rcases List.mem_cons.mp hs with rfl | hmem
        · exact ⟨(w', f), List.mem_cons_self _ _, heval⟩
        · exact
            let ⟨q, hq, he⟩ := ih tail htail s hmem
            ⟨q, List.mem_cons_of_mem _ hq, he⟩

/-- C8: a wallet whose signal is non-zero on exactly `MIN_ACTIVE_HOURS − 1`
bars of the training window is rejected by `evaluate_wallet` (returns `None`)
and is therefore excluded from `select_wallets`' output, regardless of hit
rate, price series, or flow values. -/
theorem c8_low_activity_excluded (w : String) (flow : ℕ → ℚ) (times : List ℕ)
    (closes : List ℚ) (trainEnd : ℕ) (walletFlow : List (String × (ℕ → ℚ)))
    (hact : (((times.map fun t => wallet_flow_signal (flow t)).take trainEnd).filter
        (fun s => decide (s ≠ 0))).length = MIN_ACTIVE_HOURS - 1)
    (hw : ∀ p ∈ walletFlow, p.1 = w → p.2 = flow) :
    evaluate_wallet w flow times closes trainEnd = Except.ok none ∧
    ∀ sel, select_wallets walletFlow times closes trainEnd = Except.ok sel →
      ∀ s ∈ sel, s.wallet ≠ w := by
  have heval : evaluate_wallet w flow times closes trainEnd = Except.ok none := by
    unfold evaluate_wallet
    dsimp only
    rw [hact]
    rw [if_pos (by norm_num [MIN_ACTIVE_HOURS])]
  refine ⟨heval, ?_⟩
  classical
  intro sel hsel s hs hname
  unfold select_wallets at hsel
  split at hsel
  · simp at hsel
  · next stats hstats =>
    simp only [Except.ok.injEq] at hsel
    subst hsel
    have hs2 : s ∈ sortBy statKeyGe stats :=
      List.mem_of_mem_filter (List.take_subset _ _ hs)
    have hs3 : s ∈ stats := (mem_sortBy statKeyGe s stats).mp hs2
    obtain ⟨p, hp, he⟩ := collectStats_mem times closes trainEnd walletFlow stats hstats s hs3
    have hpw : p.1 = w := by rw [← evaluate_wallet_name p.1 p.2 times closes trainEnd s he, hname]
    have hpf : p.2 = flow := hw p hp hpw
    rw [hpw, hpf, heval] at he
    simp at he

/-- C8 witness: a wallet active on exactly 7 = `MIN_ACTIVE_HOURS − 1` of 10
training bars is rejected by `evaluate_wallet`. -/
theorem c8_witness : evaluate_wallet "a" wflow8 times8 [] 10 = Except.ok none :=
  (c8_low_activity_excluded "a" wflow8 times8 [] 10 [("a", wflow8)]
    (by decide)
    (by intro p hp _; simp at hp; subst hp; rfl)).1

/-- Defaulted indexing through `map` at an in-range index. -/
theorem getD_map_lt (f : α → β) (l : List α) (i : ℕ) (h : i < l.length) (d : β) (d' : α) :
    (l.map f).getD i d = f (l.getD i d') := by
  rw [List.getD_eq_getElem?_getD, List.getElem?_map, List.getD_eq_getElem?_getD]
  rw [List.getElem?_eq_getElem h]
  simp

/-- C9: with positive total weight, a bar whose weighted consensus score is
exactly the threshold θ is NOT classified long, a bar at exactly −θ is not
classified short, and (for the nonnegative thresholds the report uses) such a
bar is flat: the long/short classification requires strict inequality. -/
theorem c9_threshold_strict (stats : List WalletStat) (walletFlow : String → ℕ → ℚ)
    (times : List ℕ) (θ : ℝ) (i : ℕ)
    (htw : 0 < (stats.map (fun w => w.weight)).sum)
    (hi : i < times.length) :
    (consensusScore stats walletFlow (times.getD i 0) = θ →
      (build_combined_signal stats walletFlow times θ).getD i 0 ≠ 1) ∧
    (consensusScore stats walletFlow (times.getD i 0) = -θ →
      (build_combined_signal stats walletFlow times θ).getD i 0 ≠ -1) ∧
    (0 ≤ θ →
      (consensusScore stats walletFlow (times.getD i 0) = θ ∨
        consensusScore stats walletFlow (times.getD i 0) = -θ) →
      (build_combined_signal stats walletFlow times θ).getD i 0 = 0) := by
  have hrw : (build_combined_signal stats walletFlow times θ).getD i 0 =
      (if consensusScore stats walletFlow (times.getD i 0) > θ then 1
       else if consensusScore stats walletFlow (times.getD i 0) < -θ then -1 else 0 : ℤ) := by
    unfold build_combined_signal
    rw [if_neg (not_le.mpr htw)]
    exact getD_map_lt _ times i hi 0 0
  rw [hrw]
  refine ⟨?_, ?_, ?_⟩
  · intro h
    rw [h, if_neg (lt_irrefl θ)]
    split_ifs <;> simp
  · intro h
    rw [h]
    split_ifs with ha hb
    · simp
    · exact absurd hb (lt_irrefl _)
    · simp
  · intro h0 hs
    rcases hs with h | h <;> rw [h]
    · rw [if_neg (lt_irrefl θ), if_neg (by intro hc; linarith)]
    · rw [if_neg (by intro hc; linarith), if_neg (lt_irrefl (-θ))]

/-- C9 witness: one selected wallet of weight 1, always-positive flow, and
threshold θ = 1: the bar's score is exactly θ and the bar is classified flat,
not long. -/
theorem c9_witness : (build_combined_signal [stat9] flow9 [0] 1).getD 0 0 = 0 :=
  (c9_threshold_strict [stat9] flow9 [0] 1 0
      (by simp [stat9]) (by simp)).2.2 (by norm_num)
    (Or.inl (by simp [consensusScore, stat9, flow9, wallet_flow_signal]))

end NewsAgent
